import Mathlib

/-!
Shallow embedding of the hierarchical-revenue-forecast core
(packages `mlrf-data` and `mlrf-ml`) and verification of the frozen
claims about it.

Conventions of the embedding:
* numeric array entries (numpy float32 / polars Float64) are modelled as
  rationals `ℚ`; machine dates (`datetime.date` plus `timedelta(days=n)`
  arithmetic) are modelled as integers `ℤ` counting days;
* a numpy matrix is modelled as a function `ℕ → ℕ → ℚ` together with the
  explicit row/column counts that the source carries alongside it;
* a polars/pandas column is a `List`; a nullable column is a
  `List (Option ℚ)`;
* python `assert` (raising `AssertionError`) is modelled with
  `Except String` — `Except.error msg` is the raised assertion.
-/

/-! ### Definitions: mlrf-data / hierarchy.py -/

/-- The composite `sorted(df.select(col).unique()[col].to_list())`: the distinct values of a
column in ascending order.  `polars.unique` returns the distinct values in an
unspecified order and python's `sorted` then sorts them ascending, so the
composite is deduplication followed by an ascending sort. -/
def sortedUnique {α : Type} [LinearOrder α] (l : List α) : List α :=
  List.insertionSort (fun a b => a ≤ b) l.dedup

/-- The output dictionary of `build_hierarchy_spec` (hierarchy.py lines 57-63):
bottom ids, the three tag arrays, and the three counts. -/
structure HierarchySpec where
  bottom_ids : List String
  tags_total : List String
  tags_store : List String
  tags_family : List String
  n_stores : ℕ
  n_families : ℕ
  n_bottom : ℕ
deriving DecidableEq

/-- Embedding of `build_hierarchy_spec` (hierarchy.py lines 16-63).  The input frame is
reduced to its `(store_nbr, family)` rows, the only columns the function
reads.  Stores and families are deduplicated and sorted ascending; bottom ids
are `f"{store}_{family}"` with stores in the outer loop and families in the
inner loop; the tag arrays recompute the parents by splitting each unique id
on `"_"` exactly as the python does. -/
def build_hierarchy_spec (df : List (ℕ × String)) : HierarchySpec :=
  let stores := sortedUnique (df.map Prod.fst)
  let families := sortedUnique (df.map Prod.snd)
  let bottom_ids :=
    stores.flatMap (fun store => families.map (fun family => toString store ++ "_" ++ family))
  { bottom_ids := bottom_ids
    tags_total := bottom_ids.map (fun _ => "Total")
    tags_store := bottom_ids.map (fun uid => "Store_" ++ ((uid.splitOn "_").headD ""))
    tags_family := bottom_ids.map
      (fun uid => "Family_" ++ String.intercalate "_" ((uid.splitOn "_").tail))
    n_stores := stores.length
    n_families := families.length
    n_bottom := bottom_ids.length }

/-- Embedding of `create_summing_matrix` (hierarchy.py lines 66-119), entrywise.  The
python allocates `np.zeros((1+ns+nf+ns*nf, ns*nf))` and then writes four
disjoint row blocks; this function is the resulting entry at `(i, j)`:
row `0` is all ones; row `1+s` (store `s`) is one on columns
`[s*nf, s*nf+nf)`; row `1+ns+f` (family `f`) is one on the columns
`s*nf+f` for each store `s` (equivalently, on the columns `j` with
`j % nf = f`, since every `j < ns*nf` is uniquely `(j/nf)*nf + j%nf`);
the trailing block is `np.eye(ns*nf)`.  Outside the allocated shape the
entry is the untouched zero. -/
def create_summing_matrix (ns nf : ℕ) (i j : ℕ) : ℚ :=
  if j < ns * nf ∧ i < 1 + ns + nf + ns * nf then
    if i = 0 then 1
    else if i ≤ ns then (if (i - 1) * nf ≤ j ∧ j < (i - 1) * nf + nf then 1 else 0)
    else if i ≤ ns + nf then (if j % nf = i - 1 - ns then 1 else 0)
    else (if j + (1 + ns + nf) = i then 1 else 0)
  else 0

/-- The row sum `S[i, :].sum()` over the `n` columns of the matrix. -/
def rowSum (S : ℕ → ℕ → ℚ) (i n : ℕ) : ℚ :=
  ∑ j ∈ Finset.range n, S i j

/-- The `np.eye(n)` entry at `(i, j)` (the expected identity block of the
validator). -/
def eye (i j : ℕ) : ℚ :=
  if i = j then 1 else 0

/-- Default relative tolerance `rtol=1e-5` of `np.allclose`. -/
def np_allclose_rtol : ℚ := 1 / 100000

/-- Default absolute tolerance `atol=1e-8` of `np.allclose`. -/
def np_allclose_atol : ℚ := 1 / 100000000

/-- First store row (if any) failing `S[1+i, :].sum() == n_families`
(hierarchy.py lines 153-155): the python `for` loop asserts each row in
order, so the raised assertion is the first failing index. -/
def firstBadStoreRow (S : ℕ → ℕ → ℚ) (ns nf nb : ℕ) : Option ℕ :=
  (List.range ns).find? (fun i => decide (rowSum S (1 + i) nb ≠ (nf : ℚ)))

/-- First family row (if any) failing `S[1+ns+j, :].sum() == n_stores`
(hierarchy.py lines 158-160). -/
def firstBadFamilyRow (S : ℕ → ℕ → ℚ) (ns nf nb : ℕ) : Option ℕ :=
  (List.range nf).find? (fun j => decide (rowSum S (1 + ns + j) nb ≠ (ns : ℚ)))

/-- The check `np.allclose(S[1+ns+nf:, :], np.eye(nb))` (hierarchy.py lines 163-166):
every entry of the trailing block is within numpy's default tolerances of
the identity. -/
def bottomBlockOk (S : ℕ → ℕ → ℚ) (ns nf nb : ℕ) : Bool :=
  (List.range nb).all (fun i => (List.range nb).all (fun j =>
    decide (|S (1 + ns + nf + i) j - eye i j| ≤
      np_allclose_atol + np_allclose_rtol * |eye i j|)))

/-- Embedding of `validate_summing_matrix` (hierarchy.py lines 122-169).  Four checks run
in order, each an `assert` with an "expected vs actual" message; the function
body's only `return` statement is `return True` at the end, reached when all
asserts pass. -/
def validate_summing_matrix (S : ℕ → ℕ → ℚ) (ns nf nb : ℕ) : Except String Bool :=
  if rowSum S 0 nb ≠ (nb : ℚ) then
    Except.error ("Total row sums to " ++ toString (rowSum S 0 nb) ++
      ", expected " ++ toString nb)
  else
    match firstBadStoreRow S ns nf nb with
    | some i =>
        Except.error ("Store row " ++ toString i ++ " sums to " ++
          toString (rowSum S (1 + i) nb) ++ ", expected " ++ toString nf)
    | none =>
        match firstBadFamilyRow S ns nf nb with
        | some j =>
            Except.error ("Family row " ++ toString j ++ " sums to " ++
              toString (rowSum S (1 + ns + j) nb) ++ ", expected " ++ toString ns)
        | none =>
            if bottomBlockOk S ns nf nb then Except.ok true
            else Except.error "Bottom rows don't form identity"

/-! ### Definitions: mlrf-ml / reconciliation.py — aggregation -/

/-- Embedding of `aggregate_bottom_forecasts` (reconciliation.py lines 130-153), 1-D
branch: `S @ bottom_forecasts`, the matrix-vector product.  `nb` is the
length of the bottom vector (the 2-D branch of the python applies the same
product row by row). -/
def aggregate_bottom_forecasts (b : ℕ → ℚ) (nb : ℕ) (S : ℕ → ℕ → ℚ) : ℕ → ℚ :=
  fun i => ∑ j ∈ Finset.range nb, S i j * b j

/-! ### Definitions: mlrf-data / features.py -/

/-- The column `pl.col(target_col).shift(k).over(group_cols)` acting on one group's
column (features.py line 38): the value at position `t` is the column's value
at `t - k`, and the first `k` positions are null. -/
def shiftF (k : ℕ) (xs : List ℚ) : List (Option ℚ) :=
  (List.range xs.length).map (fun t => if t < k then none else xs[t - k]?)

/-- The statistic `.rolling_mean(window_size=w)` on a nullable column (features.py
lines 74-79).  polars' default `min_periods` equals the window size and
counts non-null values, so position `t` aggregates the non-null entries among
positions `[t+1-w, t]` and is null unless all `w` are present. -/
def rolling_mean (w : ℕ) (xs : List (Option ℚ)) : List (Option ℚ) :=
  (List.range xs.length).map (fun t =>
    let vals := ((xs.take (t + 1)).drop (t + 1 - w)).filterMap id
    if w ≤ vals.length then some (vals.sum / (vals.length : ℚ)) else none)

/-- Embedding of `create_rolling_features` (features.py lines 44-91) acting on one group's
target column for one window `w`: the rolling mean of the target shifted by
one period (the rolling-std column is the same construction with `std` and is
not needed by the claims). -/
def create_rolling_features (target : List ℚ) (w : ℕ) : List (Option ℚ) :=
  rolling_mean w (shiftF 1 target)

/-- One row of the per-group feature matrix: the row position `t` within its
(time-sorted) group, the raw target, and the lag columns `sales_lag_k` for
the configured lags `[1, 7, 14, 28, forecast_horizon]` (features.py line 218);
`lagH` is the maximum-horizon lag `sales_lag_{forecast_horizon}`. -/
structure FeatRow where
  t : ℕ
  sales : ℚ
  lag1 : Option ℚ
  lag7 : Option ℚ
  lag14 : Option ℚ
  lag28 : Option ℚ
  lagH : Option ℚ
deriving DecidableEq

/-- Embedding of `create_lag_features` (features.py lines 8-41) acting on one group:
row `t` carries the target and each configured lag column, the group's
target column shifted by `k`. -/
def featRows (xs : List ℚ) (horizon : ℕ) : List FeatRow :=
  (List.range xs.length).map (fun t =>
    { t := t
      sales := xs.getD t 0
      lag1 := (shiftF 1 xs).getD t none
      lag7 := (shiftF 7 xs).getD t none
      lag14 := (shiftF 14 xs).getD t none
      lag28 := (shiftF 28 xs).getD t none
      lagH := (shiftF horizon xs).getD t none })

/-- The drop `df.drop_nulls(subset=[f"sales_lag_" + str(forecast_horizon)])` restricted to
one group (features.py line 230): keep exactly the rows whose
maximum-horizon lag entry is non-null. -/
def build_group_features (xs : List ℚ) (horizon : ℕ) : List FeatRow :=
  (featRows xs horizon).filter (fun r => r.lagH.isSome)

/-- Embedding of `build_feature_matrix` (features.py lines 179-234), group-wise view: the
panel is the list of `(unique_id, time-sorted target column)` groups (the
frame is sorted by group and date on line 204); every lag is computed
`.over(group_cols)` and the final `drop_nulls` keeps a row iff its own
`sales_lag_{horizon}` entry is non-null, so it acts independently on every
group. -/
def build_feature_matrix (panel : List (String × List ℚ)) (horizon : ℕ) :
    List (String × List FeatRow) :=
  panel.map (fun p => (p.1, build_group_features p.2 horizon))

/-! ### Definitions: mlrf-ml / reconciliation.py — consistency check and method selection -/

/-- The values of one value column for one `unique_id`: the rows of the
forecast frame with that id, projected to column `c`.  The frame is the list
of `(unique_id, value-row)` rows; column `c` of a row is `r.2.getD c 0`. -/
def colVals (rows : List (String × List ℚ)) (c : ℕ) (uid : String) : List ℚ :=
  (rows.filter (fun r => decide (r.1 = uid))).map (fun r => r.2.getD c 0)

/-- The mean `forecasts.groupby("unique_id")[col].mean()` at one id
(reconciliation.py line 186). -/
def meanVal (rows : List (String × List ℚ)) (c : ℕ) (uid : String) : ℚ :=
  (colVals rows c uid).sum / ((colVals rows c uid).length : ℚ)

/-- The lookup `values_by_id.get(uid, 0)` (reconciliation.py lines 189 and 196): the
per-id mean when the id occurs in the frame, else the default `0`. -/
def valuesById_get (rows : List (String × List ℚ)) (c : ℕ) (uid : String) : ℚ :=
  if rows.any (fun r => decide (r.1 = uid)) then meanVal rows c uid else 0

/-- Embedding of `verify_hierarchy_consistency` (reconciliation.py lines 156-203).  For
each of the `m` value columns it builds the bottom vector from the per-id
means (0 for missing ids), takes entry 0 of `S @ bottom_values` as
`expected_total`, recomputes `actual_total` as the direct sum of the same
per-id values, and fails the column iff `|expected - actual| > tol`; the
locals of the python body are inlined. -/
def verify_hierarchy_consistency (rows : List (String × List ℚ)) (m : ℕ)
    (S : ℕ → ℕ → ℚ) (bottom_ids : List String) (tol : ℚ) : Bool :=
  (List.range m).all (fun c =>
    decide (¬(|(∑ j ∈ Finset.range bottom_ids.length,
        S 0 j * (bottom_ids.map (fun uid => valuesById_get rows c uid)).getD j 0) -
        (bottom_ids.map (fun uid => valuesById_get rows c uid)).sum| > tol)))

/-- A row of `evaluate_reconciliation`'s output (reconciliation.py
lines 116-125): reconciliation method name, hierarchy level, and the three
metric columns. -/
structure EvalRow where
  method : String
  level : String
  mape : ℚ
  rmse : ℚ
  mae : ℚ
deriving DecidableEq

/-- The metric column chosen by `select_best_reconciliation_method`'s
`metric` parameter (one of `rmse`, `mape`, `mae`). -/
inductive MetricName where
  | mape : MetricName
  | rmse : MetricName
  | mae : MetricName
deriving DecidableEq

/-- Projection of an evaluation row to the chosen metric column. -/
def metricVal (metric : MetricName) (r : EvalRow) : ℚ :=
  match metric with
  | MetricName.mape => r.mape
  | MetricName.rmse => r.rmse
  | MetricName.mae => r.mae

/-- The filter `df = df[df["level"] == level]` when a level is given, else the whole
table (reconciliation.py lines 230-231). -/
def filterLevel (results : List EvalRow) (level : Option String) : List EvalRow :=
  match level with
  | some lv => results.filter (fun r => decide (r.level = lv))
  | none => results

/-- The aggregate `df.groupby("method")[metric].mean()` at one method name
(reconciliation.py line 234). -/
def methodMean (df : List EvalRow) (metric : MetricName) (m : String) : ℚ :=
  ((df.filter (fun r => decide (r.method = m))).map (metricVal metric)).sum /
    ((df.filter (fun r => decide (r.method = m))).length : ℚ)

/-- Ordering of `(method, mean score)` pairs by score, the key of
`sort_values()`. -/
def scoreLE (a b : String × ℚ) : Prop :=
  a.2 ≤ b.2

instance : DecidableRel scoreLE :=
  fun a b => inferInstanceAs (Decidable (a.2 ≤ b.2))

/-- Embedding of `select_best_reconciliation_method` (reconciliation.py lines 206-241):
group the (level-filtered) rows by method — pandas `groupby(sort=True)`
orders the method names ascending — take the mean of the chosen metric per
method, sort ascending by score (`sort_values`; numpy's sort is insertion
sort below 16 elements, hence stable there, and a handful of reconciliation
methods is far below 16), and return the first index entry.  `.index[0]` on
an empty frame raises, modelled by `none`. -/
def select_best_reconciliation_method (results : List EvalRow) (metric : MetricName)
    (level : Option String) : Option String :=
  (List.insertionSort scoreLE
    ((sortedUnique ((filterLevel results level).map (fun r => r.method))).map
      (fun m => (m, methodMean (filterLevel results level) metric m)))).head?.map Prod.fst

/-! ### Definitions: mlrf-ml / validation.py -/

/-- One produced fold of `walk_forward_split`: the four computed boundary
dates and the two filtered row sets (here: the dates of the retained rows,
the only column the filters read). -/
structure Fold where
  train_start : ℤ
  train_end : ℤ
  valid_start : ℤ
  valid_end : ℤ
  train : List ℤ
  valid : List ℤ
deriving DecidableEq

/-- The minimum `df.select(pl.col(date_col).min()).item()` on the (nonempty) panel. -/
def minDate (dates : List ℤ) : ℤ :=
  dates.foldl min (dates.headD 0)

/-- The maximum `df.select(pl.col(date_col).max()).item()` on the (nonempty) panel. -/
def maxDate (dates : List ℤ) : ℤ :=
  dates.foldl max (dates.headD 0)

/-- Embedding of `walk_forward_split` (validation.py lines 121-190).  The panel is its
list of row dates (days as integers; `timedelta(days=n)` arithmetic is
integer subtraction).  For fold index `i` the four boundaries are computed
backwards from the latest date; a fold whose training window would start
before the earliest date is skipped, and a fold with an empty train or valid
row set is silently not appended. -/
def walk_forward_split (dates : List ℤ) (train_days valid_days gap_days : ℤ)
    (n_splits : ℕ) (step_days : ℤ) : List Fold :=
  (List.range n_splits).filterMap (fun (i : ℕ) =>
    if maxDate dates - (i : ℤ) * step_days - valid_days - gap_days - train_days <
        minDate dates then
      none
    else
      if (dates.filter (fun d =>
            decide (maxDate dates - (i : ℤ) * step_days - valid_days - gap_days - train_days ≤ d ∧
              d < maxDate dates - (i : ℤ) * step_days - valid_days - gap_days))) ≠ [] ∧
          (dates.filter (fun d =>
            decide (maxDate dates - (i : ℤ) * step_days - valid_days ≤ d ∧
              d ≤ maxDate dates - (i : ℤ) * step_days))) ≠ [] then
        some
          { train_start := maxDate dates - (i : ℤ) * step_days - valid_days - gap_days - train_days
            train_end := maxDate dates - (i : ℤ) * step_days - valid_days - gap_days
            valid_start := maxDate dates - (i : ℤ) * step_days - valid_days
            valid_end := maxDate dates - (i : ℤ) * step_days
            train := dates.filter (fun d =>
              decide (maxDate dates - (i : ℤ) * step_days - valid_days - gap_days - train_days ≤ d ∧
                d < maxDate dates - (i : ℤ) * step_days - valid_days - gap_days))
            valid := dates.filter (fun d =>
              decide (maxDate dates - (i : ℤ) * step_days - valid_days ≤ d ∧
                d ≤ maxDate dates - (i : ℤ) * step_days)) }
      else none)

/-! ### Concrete inputs used by witnesses and counterexamples -/

/-- The concrete bottom forecast vector `[100, 200, 300, 400]` of the C1
example. -/
def c1b : ℕ → ℚ := fun j => [(100 : ℚ), 200, 300, 400].getD j 0

/-- The synthetic arithmetic target of the C3 example: `day_index × 100` for
days 1..10, time-sorted within one group. -/
def c3target : List ℚ := [100, 200, 300, 400, 500, 600, 700, 800, 900, 1000]

/-- The concrete one-group target column of the C6 witness. -/
def c6xs : List ℚ := [10, 20, 30, 40, 50]

/-- The concrete forecast frame of the C5 counterexample: bottom series `b1`
and `b2` worth 1 and 2, and a Total-level row recording 100. -/
def c5rows : List (String × List ℚ) := [("b1", [1]), ("b2", [2]), ("Total", [100])]

/-- The concrete evaluation table of the C7 counterexample: encounter order
is `ZZZ` then `AAA`, and the two methods tie on every metric. -/
def c7rows : List EvalRow :=
  [{ method := "ZZZ", level := "Total", mape := 1 / 10, rmse := 100, mae := 50 },
   { method := "AAA", level := "Total", mape := 1 / 10, rmse := 100, mae := 50 }]

/-- The fold produced at the C4 counterexample input, used by the witness. -/
def c4fold : Fold :=
  { train_start := 0, train_end := 2, valid_start := 2, valid_end := 4,
    train := [0, 1], valid := [2, 3, 4] }

/-! ### Helper lemmas about indicator sums -/

theorem sum_indicator_interval (b : ℕ → ℚ) (a w n : ℕ) (h : a + w ≤ n) :
    ∑ j ∈ Finset.range n, (if a ≤ j ∧ j < a + w then (1 : ℚ) else 0) * b j =
      ∑ k ∈ Finset.range w, b (a + k) := by
  have h1 : ∀ j ∈ Finset.range n,
      (if a ≤ j ∧ j < a + w then (1 : ℚ) else 0) * b j =
        (if a ≤ j ∧ j < a + w then b j else 0) := by
    intro j _
    by_cases hj : a ≤ j ∧ j < a + w <;> simp [hj]
  rw [Finset.sum_congr rfl h1, ← Finset.sum_filter]
  have h2 : (Finset.range n).filter (fun j => a ≤ j ∧ j < a + w) = Finset.Ico a (a + w) := by
    ext j
    simp only [Finset.mem_filter, Finset.mem_range, Finset.mem_Ico]
    omega
  rw [h2, Finset.sum_Ico_eq_sum_range]
  have h3 : a + w - a = w := by omega
  rw [h3]

theorem sum_indicator_mod (b : ℕ → ℚ) (f nf ns : ℕ) (hf : f < nf) :
    ∑ j ∈ Finset.range (ns * nf), (if j % nf = f then (1 : ℚ) else 0) * b j =
      ∑ s ∈ Finset.range ns, b (s * nf + f) := by
  have hnf : 0 < nf := by omega
  have h1 : ∀ j ∈ Finset.range (ns * nf),
      (if j % nf = f then (1 : ℚ) else 0) * b j = (if j % nf = f then b j else 0) := by
    intro j _
    by_cases hj : j % nf = f <;> simp [hj]
  rw [Finset.sum_congr rfl h1, ← Finset.sum_filter]
  have h2 : (Finset.range (ns * nf)).filter (fun j => j % nf = f) =
      (Finset.range ns).image (fun s => s * nf + f) := by
    ext j
    simp only [Finset.mem_filter, Finset.mem_range, Finset.mem_image]
    constructor
    · rintro ⟨hjlt, hjmod⟩
      refine ⟨j / nf, ?_, ?_⟩
      · exact (Nat.div_lt_iff_lt_mul hnf).mpr hjlt
      · have hdm := Nat.div_add_mod j nf
        rw [hjmod] at hdm
        rw [Nat.mul_comm]
        exact hdm
    · rintro ⟨s, hs, rfl⟩
      constructor
      · calc s * nf + f < s * nf + nf := by omega
          _ = (s + 1) * nf := by ring
          _ ≤ ns * nf := Nat.mul_le_mul_right nf (by omega)
      · have hmod : (s * nf + f) % nf = f % nf := by
          rw [Nat.add_comm, Nat.add_mul_mod_self_right]
        rw [hmod, Nat.mod_eq_of_lt hf]
  rw [h2]
  refine Finset.sum_image ?_
  intro x _ y _ hxy
  have hx : x * nf = y * nf := by omega
  exact Nat.eq_of_mul_eq_mul_right hnf hx

theorem sum_indicator_eq (b : ℕ → ℚ) (k n : ℕ) (hk : k < n) :
    ∑ j ∈ Finset.range n, (if j = k then (1 : ℚ) else 0) * b j = b k := by
  have h1 : ∀ j ∈ Finset.range n,
      (if j = k then (1 : ℚ) else 0) * b j = (if j = k then b j else 0) := by
    intro j _
    by_cases hj : j = k <;> simp [hj]
  rw [Finset.sum_congr rfl h1, Finset.sum_ite_eq' (Finset.range n) k b,
    if_pos (Finset.mem_range.mpr hk)]

/-! ### Entrywise characterization of the summing matrix -/

theorem create_summing_matrix_total (ns nf j : ℕ) (hj : j < ns * nf) :
    create_summing_matrix ns nf 0 j = 1 := by
  unfold create_summing_matrix
  rw [if_pos ⟨hj, by omega⟩, if_pos rfl]

theorem create_summing_matrix_store (ns nf s j : ℕ) (hs : s < ns) (hj : j < ns * nf) :
    create_summing_matrix ns nf (1 + s) j =
      (if s * nf ≤ j ∧ j < s * nf + nf then 1 else 0) := by
  unfold create_summing_matrix
  rw [if_pos ⟨hj, by omega⟩, if_neg (by omega : ¬(1 + s = 0)),
    if_pos (by omega : 1 + s ≤ ns)]
  have h1 : 1 + s - 1 = s := by omega
  rw [h1]

theorem create_summing_matrix_family (ns nf f j : ℕ) (hf : f < nf) (hj : j < ns * nf) :
    create_summing_matrix ns nf (1 + ns + f) j = (if j % nf = f then 1 else 0) := by
  unfold create_summing_matrix
  rw [if_pos ⟨hj, by omega⟩, if_neg (by omega : ¬(1 + ns + f = 0)),
    if_neg (by omega : ¬(1 + ns + f ≤ ns)), if_pos (by omega : 1 + ns + f ≤ ns + nf)]
  have h1 : 1 + ns + f - 1 - ns = f := by omega
  rw [h1]

theorem create_summing_matrix_bottom (ns nf k j : ℕ) (hk : k < ns * nf) (hj : j < ns * nf) :
    create_summing_matrix ns nf (1 + ns + nf + k) j = (if j = k then 1 else 0) := by
  unfold create_summing_matrix
  rw [if_pos ⟨hj, by omega⟩, if_neg (by omega : ¬(1 + ns + nf + k = 0)),
    if_neg (by omega : ¬(1 + ns + nf + k ≤ ns)),
    if_neg (by omega : ¬(1 + ns + nf + k ≤ ns + nf))]
  by_cases hjk : j = k
  · rw [if_pos (by omega), if_pos hjk]
  · rw [if_neg (by omega), if_neg hjk]

/-! ### The aggregated vector, entry by entry -/

theorem aggregate_total_entry (ns nf : ℕ) (b : ℕ → ℚ) :
    aggregate_bottom_forecasts b (ns * nf) (create_summing_matrix ns nf) 0 =
      ∑ j ∈ Finset.range (ns * nf), b j := by
  unfold aggregate_bottom_forecasts
  refine Finset.sum_congr rfl ?_
  intro j hj
  rw [create_summing_matrix_total ns nf j (Finset.mem_range.mp hj), one_mul]

theorem aggregate_store_entry (ns nf s : ℕ) (b : ℕ → ℚ) (hs : s < ns) :
    aggregate_bottom_forecasts b (ns * nf) (create_summing_matrix ns nf) (1 + s) =
      ∑ k ∈ Finset.range nf, b (s * nf + k) := by
  unfold aggregate_bottom_forecasts
  have h1 : ∀ j ∈ Finset.range (ns * nf),
      create_summing_matrix ns nf (1 + s) j * b j =
        (if s * nf ≤ j ∧ j < s * nf + nf then (1 : ℚ) else 0) * b j := by
    intro j hj
    rw [create_summing_matrix_store ns nf s j hs (Finset.mem_range.mp hj)]
  rw [Finset.sum_congr rfl h1]
  refine sum_indicator_interval b (s * nf) nf (ns * nf) ?_
  calc s * nf + nf = (s + 1) * nf := by ring
    _ ≤ ns * nf := Nat.mul_le_mul_right nf (by omega)

theorem aggregate_family_entry (ns nf f : ℕ) (b : ℕ → ℚ) (hf : f < nf) :
    aggregate_bottom_forecasts b (ns * nf) (create_summing_matrix ns nf) (1 + ns + f) =
      ∑ s ∈ Finset.range ns, b (s * nf + f) := by
  unfold aggregate_bottom_forecasts
  have h1 : ∀ j ∈ Finset.range (ns * nf),
      create_summing_matrix ns nf (1 + ns + f) j * b j =
        (if j % nf = f then (1 : ℚ) else 0) * b j := by
    intro j hj
    rw [create_summing_matrix_family ns nf f j hf (Finset.mem_range.mp hj)]
  rw [Finset.sum_congr rfl h1]
  exact sum_indicator_mod b f nf ns hf

theorem aggregate_bottom_entry (ns nf k : ℕ) (b : ℕ → ℚ) (hk : k < ns * nf) :
    aggregate_bottom_forecasts b (ns * nf) (create_summing_matrix ns nf) (1 + ns + nf + k) =
      b k := by
  unfold aggregate_bottom_forecasts
  have h1 : ∀ j ∈ Finset.range (ns * nf),
      create_summing_matrix ns nf (1 + ns + nf + k) j * b j =
        (if j = k then (1 : ℚ) else 0) * b j := by
    intro j hj
    rw [create_summing_matrix_bottom ns nf k j hk (Finset.mem_range.mp hj)]
  rw [Finset.sum_congr rfl h1]
  exact sum_indicator_eq b k (ns * nf) hk

/-! ### Row sums of the created summing matrix -/

theorem rowSum_eq_aggregate_one (S : ℕ → ℕ → ℚ) (i n : ℕ) :
    rowSum S i n = aggregate_bottom_forecasts (fun _ => 1) n S i := by
  unfold rowSum aggregate_bottom_forecasts
  simp

theorem rowSum_created_total (ns nf : ℕ) :
    rowSum (create_summing_matrix ns nf) 0 (ns * nf) = ((ns * nf : ℕ) : ℚ) := by
  rw [rowSum_eq_aggregate_one, aggregate_total_entry]
  simp

theorem rowSum_created_store (ns nf s : ℕ) (hs : s < ns) :
    rowSum (create_summing_matrix ns nf) (1 + s) (ns * nf) = (nf : ℚ) := by
  rw [rowSum_eq_aggregate_one, aggregate_store_entry ns nf s _ hs]
  simp

theorem rowSum_created_family (ns nf f : ℕ) (hf : f < nf) :
    rowSum (create_summing_matrix ns nf) (1 + ns + f) (ns * nf) = (ns : ℚ) := by
  rw [rowSum_eq_aggregate_one, aggregate_family_entry ns nf f _ hf]
  simp

/-! ### The validator passes on the created matrix -/

theorem firstBadStoreRow_created (ns nf : ℕ) :
    firstBadStoreRow (create_summing_matrix ns nf) ns nf (ns * nf) = none := by
  rw [firstBadStoreRow, List.find?_eq_none]
  intro i hi
  rw [rowSum_created_store ns nf i (List.mem_range.mp hi)]
  simp

theorem firstBadFamilyRow_created (ns nf : ℕ) :
    firstBadFamilyRow (create_summing_matrix ns nf) ns nf (ns * nf) = none := by
  rw [firstBadFamilyRow, List.find?_eq_none]
  intro j hj
  rw [rowSum_created_family ns nf j (List.mem_range.mp hj)]
  simp

theorem bottomBlockOk_created (ns nf : ℕ) :
    bottomBlockOk (create_summing_matrix ns nf) ns nf (ns * nf) = true := by
  rw [bottomBlockOk, List.all_eq_true]
  intro i hi
  rw [List.all_eq_true]
  intro j hj
  rw [decide_eq_true_eq,
    create_summing_matrix_bottom ns nf i j (List.mem_range.mp hi) (List.mem_range.mp hj)]
  unfold eye np_allclose_atol np_allclose_rtol
  by_cases hij : j = i
  · rw [if_pos hij, if_pos hij.symm]
    norm_num
  · rw [if_neg hij, if_neg (fun h => hij h.symm)]
    norm_num

theorem validate_created (ns nf : ℕ) :
    validate_summing_matrix (create_summing_matrix ns nf) ns nf (ns * nf) = Except.ok true := by
  unfold validate_summing_matrix
  rw [if_neg (not_not_intro (rowSum_created_total ns nf)),
    firstBadStoreRow_created, firstBadFamilyRow_created]
  rw [if_pos (bottomBlockOk_created ns nf)]

theorem build_hierarchy_spec_n_bottom (df : List (ℕ × String)) :
    (build_hierarchy_spec df).n_bottom =
      (build_hierarchy_spec df).n_stores * (build_hierarchy_spec df).n_families := by
  unfold build_hierarchy_spec
  simp only [List.length_flatMap, Function.comp, List.length_map]
  induction sortedUnique (df.map Prod.fst) with
  | nil => simp
  | cons a t ih => simp [ih, Nat.succ_mul, Nat.add_comm]

/-! ### Claim C1 -/

/-- C1: for every bottom-level forecast vector `b` of length `ns * nf`,
`aggregate_bottom_forecasts b S` with `S` built by `create_summing_matrix`
returns `S @ b`: entry `0` is the sum of all of `b`, store entry `1+s` is the
sum of `b` over that store's `nf` consecutive columns, family entry `1+ns+f`
is the sum of `b` over that family's column in every store, and the trailing
entries echo `b` itself; in particular for 2 stores and 2 families with
`b = [100, 200, 300, 400]` the aggregate vector is
`[1000, 300, 700, 400, 600, 100, 200, 300, 400]`, i.e. Total = 1000,
Store1 = 300, Store2 = 700, Family1 = 400, Family2 = 600. -/
theorem claim_C1 (ns nf : ℕ) (b : ℕ → ℚ) :
    (aggregate_bottom_forecasts b (ns * nf) (create_summing_matrix ns nf) 0 =
        ∑ j ∈ Finset.range (ns * nf), b j) ∧
    (∀ s, s < ns →
      aggregate_bottom_forecasts b (ns * nf) (create_summing_matrix ns nf) (1 + s) =
        ∑ k ∈ Finset.range nf, b (s * nf + k)) ∧
    (∀ f, f < nf →
      aggregate_bottom_forecasts b (ns * nf) (create_summing_matrix ns nf) (1 + ns + f) =
        ∑ s ∈ Finset.range ns, b (s * nf + f)) ∧
    (∀ k, k < ns * nf →
      aggregate_bottom_forecasts b (ns * nf) (create_summing_matrix ns nf) (1 + ns + nf + k) =
        b k) ∧
    ((List.range 9).map
        (aggregate_bottom_forecasts (fun j => [(100 : ℚ), 200, 300, 400].getD j 0) (2 * 2)
          (create_summing_matrix 2 2)) =
      [1000, 300, 700, 400, 600, 100, 200, 300, 400]) :=
  ⟨aggregate_total_entry ns nf b,
   fun s hs => aggregate_store_entry ns nf s b hs,
   fun f hf => aggregate_family_entry ns nf f b hf,
   fun k hk => aggregate_bottom_entry ns nf k b hk,
   by norm_num [aggregate_bottom_forecasts, create_summing_matrix, Finset.sum_range_succ,
     List.range_succ]⟩

/-- Witness for C1 at the 2-store, 2-family example. -/
theorem claim_C1_witness :
    (0 < 2) ∧
    aggregate_bottom_forecasts c1b (2 * 2) (create_summing_matrix 2 2) (1 + 0) =
      ∑ k ∈ Finset.range 2, c1b (0 * 2 + k) :=
  ⟨by decide, (claim_C1 2 2 c1b).2.1 0 (by decide)⟩

/-! ### Claim C2 -/

/-- C2: for every hierarchy spec produced by `build_hierarchy_spec` on a
non-empty input (hence non-empty sets of stores and families),
`validate_summing_matrix` applied to the matrix built by
`create_summing_matrix` passes all four checks and returns `True`. -/
theorem claim_C2 (df : List (ℕ × String)) (_hdf : df ≠ []) :
    validate_summing_matrix
      (create_summing_matrix (build_hierarchy_spec df).n_stores
        (build_hierarchy_spec df).n_families)
      (build_hierarchy_spec df).n_stores (build_hierarchy_spec df).n_families
      (build_hierarchy_spec df).n_bottom = Except.ok true := by
  rw [build_hierarchy_spec_n_bottom]
  exact validate_created _ _

/-- Witness for C2 at a concrete two-store, two-family input frame. -/
theorem claim_C2_witness :
    (([(1, "A"), (1, "B"), (2, "A"), (2, "B")] : List (ℕ × String)) ≠ []) ∧
    validate_summing_matrix
      (create_summing_matrix
        (build_hierarchy_spec [(1, "A"), (1, "B"), (2, "A"), (2, "B")]).n_stores
        (build_hierarchy_spec [(1, "A"), (1, "B"), (2, "A"), (2, "B")]).n_families)
      (build_hierarchy_spec [(1, "A"), (1, "B"), (2, "A"), (2, "B")]).n_stores
      (build_hierarchy_spec [(1, "A"), (1, "B"), (2, "A"), (2, "B")]).n_families
      (build_hierarchy_spec [(1, "A"), (1, "B"), (2, "A"), (2, "B")]).n_bottom =
      Except.ok true :=
  ⟨by decide, claim_C2 [(1, "A"), (1, "B"), (2, "A"), (2, "B")] (by decide)⟩

/-! ### Claim C10 -/

/-- C10 (amended): `validate_summing_matrix` never returns `False`: for
every matrix and every spec it either returns `True` (all four checks pass)
or raises an `AssertionError` (modelled as `Except.error`), so the `False`
branch of its declared pass/fail result is unreachable; the messages of the
three row-sum checks state the expected versus actual sum of the first
violated check, but the identity check raises the fixed message
`"Bottom rows don't form identity"`, which names no expected or actual
value. -/
theorem claim_C10 (S : ℕ → ℕ → ℚ) (ns nf nb : ℕ) :
    validate_summing_matrix S ns nf nb = Except.ok true ∨
      ∃ msg, validate_summing_matrix S ns nf nb = Except.error msg ∧
        ((rowSum S 0 nb ≠ (nb : ℚ) ∧
            msg = "Total row sums to " ++ toString (rowSum S 0 nb) ++
              ", expected " ++ toString nb) ∨
         (∃ i, firstBadStoreRow S ns nf nb = some i ∧
            msg = "Store row " ++ toString i ++ " sums to " ++
              toString (rowSum S (1 + i) nb) ++ ", expected " ++ toString nf) ∨
         (∃ j, firstBadFamilyRow S ns nf nb = some j ∧
            msg = "Family row " ++ toString j ++ " sums to " ++
              toString (rowSum S (1 + ns + j) nb) ++ ", expected " ++ toString ns) ∨
         msg = "Bottom rows don't form identity") := by
  unfold validate_summing_matrix
  by_cases h1 : rowSum S 0 nb ≠ (nb : ℚ)
  · right
    exact ⟨_, by rw [if_pos h1], Or.inl ⟨h1, rfl⟩⟩
  · rw [if_neg h1]
    cases h2 : firstBadStoreRow S ns nf nb with
    | some i => right; exact ⟨_, rfl, Or.inr (Or.inl ⟨i, rfl, rfl⟩)⟩
    | none =>
      cases h3 : firstBadFamilyRow S ns nf nb with
      | some j => right; exact ⟨_, rfl, Or.inr (Or.inr (Or.inl ⟨j, rfl, rfl⟩))⟩
      | none =>
        by_cases h4 : bottomBlockOk S ns nf nb
        · left
          rw [if_pos h4]
        · right
          exact ⟨_, by rw [if_neg h4], Or.inr (Or.inr (Or.inr rfl))⟩

/-- Counterexample to C10 as stated: the identity check (the fourth assert,
hierarchy.py line 166) raises the fixed message
`"Bottom rows don't form identity"`.  Two matrices violating that check with
different actual entries (bottom entry 0 versus 5 against expected 1)
produce the identical message, so the raised message does not state the
expected versus actual value of the violated check. -/
theorem claim_C10_counterexample :
    validate_summing_matrix (fun i _ => if i = 0 then 1 else 0) 0 0 1 =
      Except.error "Bottom rows don't form identity" ∧
    validate_summing_matrix (fun i j => if i = 0 then 1 else if j = 0 then 5 else 0) 0 0 1 =
      Except.error "Bottom rows don't form identity" := by
  constructor
  · with_unfolding_all rfl
  · with_unfolding_all rfl

/-! ### Claim C8 -/

theorem sortedUnique_perm_eq {α : Type} [LinearOrder α] {l₁ l₂ : List α} (h : l₁.Perm l₂) :
    sortedUnique l₁ = sortedUnique l₂ := by
  unfold sortedUnique
  have hA : IsAntisymm α (fun a b : α => a ≤ b) := ⟨fun _ _ => le_antisymm⟩
  have hT : IsTotal α (fun a b : α => a ≤ b) := ⟨le_total⟩
  have hR : IsTrans α (fun a b : α => a ≤ b) := ⟨fun _ _ _ => le_trans⟩
  exact @List.eq_of_perm_of_sorted α (fun a b : α => a ≤ b) hA _ _
    (((List.perm_insertionSort _ _).trans h.dedup).trans
      (List.perm_insertionSort _ _).symm)
    (@List.sorted_insertionSort α _ _ hT hR _)
    (@List.sorted_insertionSort α _ _ hT hR _)

/-- C8: `build_hierarchy_spec` is deterministic — on inputs holding the same
rows (identical inputs, and even inputs that merely agree as multisets) it
produces identical outputs: the same `bottom_ids` in the same order and
bit-for-bit identical tag arrays; moreover the `bottom_ids` enumeration is
the ascending sorted stores in the outer loop and the ascending sorted
families in the inner loop. -/
theorem claim_C8 (df₁ df₂ : List (ℕ × String)) (h : df₁.Perm df₂) :
    build_hierarchy_spec df₁ = build_hierarchy_spec df₂ ∧
    (build_hierarchy_spec df₁).bottom_ids =
      (sortedUnique (df₁.map Prod.fst)).flatMap
        (fun store => (sortedUnique (df₁.map Prod.snd)).map
          (fun family => toString store ++ "_" ++ family)) := by
  constructor
  · have hs : sortedUnique (df₁.map Prod.fst) = sortedUnique (df₂.map Prod.fst) :=
      sortedUnique_perm_eq (h.map Prod.fst)
    have hf : sortedUnique (df₁.map Prod.snd) = sortedUnique (df₂.map Prod.snd) :=
      sortedUnique_perm_eq (h.map Prod.snd)
    unfold build_hierarchy_spec
    rw [hs, hf]
  · rfl

/-- Witness for C8: two row orderings of the same two-row frame give
identical hierarchy specs. -/
theorem claim_C8_witness :
    (([(2, "B"), (1, "A")] : List (ℕ × String)).Perm [(1, "A"), (2, "B")]) ∧
    build_hierarchy_spec [(2, "B"), (1, "A")] = build_hierarchy_spec [(1, "A"), (2, "B")] :=
  ⟨by decide, (claim_C8 [(2, "B"), (1, "A")] [(1, "A"), (2, "B")] (by decide)).1⟩

/-! ### Rolling-window lemmas -/

theorem shiftF_length (k : ℕ) (xs : List ℚ) : (shiftF k xs).length = xs.length := by
  simp [shiftF]

theorem filterMap_id_map_some {α β : Type} (f : β → α) (l : List β) :
    (l.map (fun k => some (f k))).filterMap id = l.map f := by
  induction l with
  | nil => rfl
  | cons a t ih => simp [List.filterMap_cons, ih]

theorem range_drop_eq_range' (m t : ℕ) (h : m ≤ t) :
    (List.range t).drop (t - m) = List.range' (t - m) m := by
  rw [List.range_eq_range']
  have hsplit := List.range'_append 0 (t - m) m 1
  simp only [Nat.zero_add, Nat.one_mul] at hsplit
  have ht : m + (t - m) = t := by omega
  rw [ht] at hsplit
  rw [← hsplit]
  exact List.drop_left' (List.length_range' 0 1 (t - m))

theorem shiftF_one_window (xs : List ℚ) (w t : ℕ) (hwt : w ≤ t) (ht : t < xs.length) :
    ((shiftF 1 xs).take (t + 1)).drop (t + 1 - w) =
      (List.range w).map (fun k => some (xs.getD (t - w + k) 0)) := by
  unfold shiftF
  rw [← List.map_take, List.take_range]
  have hmin : (t + 1) ⊓ xs.length = t + 1 := by omega
  rw [hmin, ← List.map_drop]
  rw [range_drop_eq_range' w (t + 1) (by omega), List.range'_eq_map_range, List.map_map]
  refine List.map_congr_left ?_
  intro k hk
  have hk' : k < w := List.mem_range.mp hk
  simp only [Function.comp]
  rw [if_neg (by omega : ¬(t + 1 - w + k < 1))]
  have hidx : t + 1 - w + k - 1 = t - w + k := by omega
  rw [hidx, List.getElem?_eq_getElem (by omega : t - w + k < xs.length)]
  rw [List.getD_eq_getElem?_getD, List.getElem?_eq_getElem (by omega : t - w + k < xs.length)]
  rfl

theorem shiftF_one_window_small (xs : List ℚ) (w t : ℕ) (_hw : 1 ≤ w) (htw : t < w)
    (ht : t < xs.length) :
    ((shiftF 1 xs).take (t + 1)).drop (t + 1 - w) =
      none :: (List.range t).map (fun k => some (xs.getD k 0)) := by
  have h0 : t + 1 - w = 0 := by omega
  rw [h0, List.drop_zero]
  unfold shiftF
  rw [← List.map_take, List.take_range]
  have hmin : (t + 1) ⊓ xs.length = t + 1 := by omega
  rw [hmin, List.range_eq_range', List.range'_succ]
  simp only [List.map_cons]
  rw [if_pos (by omega : (0 : ℕ) < 1)]
  congr 1
  rw [List.range'_eq_map_range, List.map_map]
  refine List.map_congr_left ?_
  intro k hk
  have hk' : k < t := List.mem_range.mp hk
  simp only [Function.comp]
  rw [if_neg (by omega : ¬(1 + k < 1))]
  have hidx : 1 + k - 1 = k := by omega
  rw [hidx, List.getElem?_eq_getElem (by omega : k < xs.length)]
  rw [List.getD_eq_getElem?_getD, List.getElem?_eq_getElem (by omega : k < xs.length)]
  rfl

theorem create_rolling_features_null (target : List ℚ) (w t : ℕ) (hw : 1 ≤ w) (htw : t < w)
    (ht : t < target.length) :
    (create_rolling_features target w)[t]? = some none := by
  unfold create_rolling_features rolling_mean
  rw [List.getElem?_map, List.getElem?_range (by rw [shiftF_length]; exact ht)]
  rw [Option.map_some']
  congr 1
  rw [shiftF_one_window_small target w t hw htw ht]
  rw [List.filterMap_cons]
  simp only [id]
  rw [filterMap_id_map_some]
  rw [if_neg (by simp; omega)]

theorem create_rolling_features_value (target : List ℚ) (w t : ℕ) (hwt : w ≤ t)
    (ht : t < target.length) :
    (create_rolling_features target w)[t]? =
      some (some ((((List.range w).map (fun k => target.getD (t - w + k) 0)).sum) / (w : ℚ))) := by
  unfold create_rolling_features rolling_mean
  rw [List.getElem?_map, List.getElem?_range (by rw [shiftF_length]; exact ht)]
  rw [Option.map_some']
  congr 1
  rw [shiftF_one_window target w t hwt ht, filterMap_id_map_some]
  rw [if_pos (by simp)]
  simp

/-! ### Claim C3 -/

/-- C3: for every group (sorted by time ascending) and every window `w`, the
rolling-mean feature of `create_rolling_features` at 0-based row index `t`
equals the mean of the raw target values at indices `[t-w, t-1]` — the value
at index `t` itself is never included — and the feature is null for the
first `w` observations of the group; e.g. `target = day_index × 100` for days
1..10 with window 3 gives rolling mean `(200+300+400)/3 = 300` at 0-based
index 4 (day 5). -/
theorem claim_C3 (target : List ℚ) (w t : ℕ) (hw : 1 ≤ w) (ht : t < target.length) :
    (t < w → (create_rolling_features target w)[t]? = some none) ∧
    (w ≤ t → (create_rolling_features target w)[t]? =
      some (some ((((List.range w).map (fun k => target.getD (t - w + k) 0)).sum) / (w : ℚ)))) ∧
    ((create_rolling_features c3target 3)[4]? = some (some 300)) := by
  refine ⟨fun htw => create_rolling_features_null target w t hw htw ht,
    fun hwt => create_rolling_features_value target w t hwt ht, ?_⟩
  rw [create_rolling_features_value c3target 3 4 (by norm_num) (by norm_num [c3target])]
  norm_num [c3target, List.range_succ]

/-- Witness for C3 at the synthetic example: window 3, 0-based row index 4. -/
theorem claim_C3_witness :
    (1 ≤ 3 ∧ 4 < c3target.length) ∧
    (3 ≤ 4 → (create_rolling_features c3target 3)[4]? =
      some (some ((((List.range 3).map (fun k => c3target.getD (4 - 3 + k) 0)).sum) / (3 : ℚ)))) :=
  ⟨⟨by norm_num, by norm_num [c3target]⟩,
   (claim_C3 c3target 3 4 (by norm_num) (by norm_num [c3target])).2.1⟩

/-! ### Claim C6 -/

theorem shiftF_getD (k t : ℕ) (xs : List ℚ) (ht : t < xs.length) :
    (shiftF k xs).getD t none = if t < k then none else some (xs.getD (t - k) 0) := by
  unfold shiftF
  rw [List.getD_eq_getElem?_getD, List.getElem?_map, List.getElem?_range ht, Option.map_some']
  by_cases hk : t < k
  · simp [hk]
  · simp only [if_neg hk, Option.getD_some]
    rw [List.getElem?_eq_getElem (by omega : t - k < xs.length),
      List.getD_eq_getElem?_getD, List.getElem?_eq_getElem (by omega : t - k < xs.length)]
    rfl

theorem featRows_getElem? (xs : List ℚ) (horizon t : ℕ) (ht : t < xs.length) :
    (featRows xs horizon)[t]? = some
      { t := t
        sales := xs.getD t 0
        lag1 := (shiftF 1 xs).getD t none
        lag7 := (shiftF 7 xs).getD t none
        lag14 := (shiftF 14 xs).getD t none
        lag28 := (shiftF 28 xs).getD t none
        lagH := (shiftF horizon xs).getD t none } := by
  unfold featRows
  rw [List.getElem?_map, List.getElem?_range ht, Option.map_some']

/-- C6: for every panel and forecast horizon, `build_feature_matrix` drops
exactly those rows whose maximum-horizon lag column `sales_lag_{horizon}` is
null — the drop criterion is null-ness of that lag feature, not a row count —
so the output has zero nulls in that column; and within each group the lag-k
column at row `t` holds the target value `k` periods earlier, null for the
first `k` observations of the group. -/
theorem claim_C6 (panel : List (String × List ℚ)) (horizon : ℕ) (xs : List ℚ) :
    (build_feature_matrix panel horizon =
      panel.map (fun p => (p.1, build_group_features p.2 horizon))) ∧
    (∀ r ∈ build_group_features xs horizon, r.lagH ≠ none) ∧
    (∀ r ∈ featRows xs horizon, (r ∈ build_group_features xs horizon ↔ r.lagH ≠ none)) ∧
    (∀ t, t < xs.length →
      (featRows xs horizon)[t]? = some
        { t := t
          sales := xs.getD t 0
          lag1 := if t < 1 then none else some (xs.getD (t - 1) 0)
          lag7 := if t < 7 then none else some (xs.getD (t - 7) 0)
          lag14 := if t < 14 then none else some (xs.getD (t - 14) 0)
          lag28 := if t < 28 then none else some (xs.getD (t - 28) 0)
          lagH := if t < horizon then none else some (xs.getD (t - horizon) 0) }) := by
  refine ⟨rfl, ?_, ?_, ?_⟩
  · intro r hr
    have h2 := (List.mem_filter.mp hr).2
    simp only [Option.isSome_iff_ne_none] at h2
    exact h2
  · intro r hr
    unfold build_group_features
    rw [List.mem_filter]
    simp [hr, Option.isSome_iff_ne_none]
  · intro t ht
    rw [featRows_getElem? xs horizon t ht, shiftF_getD 1 t xs ht, shiftF_getD 7 t xs ht,
      shiftF_getD 14 t xs ht, shiftF_getD 28 t xs ht, shiftF_getD horizon t xs ht]

/-- Witness for C6: a five-observation group with horizon 2, inspected at row
index 2. -/
theorem claim_C6_witness :
    (2 < c6xs.length) ∧
    (featRows c6xs 2)[2]? = some
      { t := 2
        sales := c6xs.getD 2 0
        lag1 := if 2 < 1 then none else some (c6xs.getD (2 - 1) 0)
        lag7 := if 2 < 7 then none else some (c6xs.getD (2 - 7) 0)
        lag14 := if 2 < 14 then none else some (c6xs.getD (2 - 14) 0)
        lag28 := if 2 < 28 then none else some (c6xs.getD (2 - 28) 0)
        lagH := if 2 < 2 then none else some (c6xs.getD (2 - 2) 0) } :=
  ⟨by norm_num [c6xs],
   (claim_C6 [] 2 c6xs).2.2.2 2 (by norm_num [c6xs])⟩

/-! ### Claims C5 and C9 -/

theorem list_sum_getD (l : List ℚ) :
    ∑ j ∈ Finset.range l.length, l.getD j 0 = l.sum := by
  induction l with
  | nil => simp
  | cons a t ih =>
    rw [List.length_cons, Finset.sum_range_succ']
    simp only [List.getD_cons_succ, List.getD_cons_zero, List.sum_cons, ih]
    ring

theorem valuesById_get_absent (rows : List (String × List ℚ)) (c : ℕ) (uid : String)
    (h : ∀ r ∈ rows, r.1 ≠ uid) : valuesById_get rows c uid = 0 := by
  have hany : rows.any (fun r => decide (r.1 = uid)) = false := by
    rw [List.any_eq_false]
    intro r hr
    simpa using h r hr
  simp [valuesById_get, hany]

/-- C5 (amended): `verify_hierarchy_consistency` compares entry 0 of
`S @ bottom_values` against the direct sum of the very same per-id bottom
values; it never reads the frame's recorded Total-level value.  With `S`
built by `create_summing_matrix` (whose row 0 is all ones) the two numbers
coincide exactly, so the function returns `True` for every frame, every
column count and every non-negative tolerance — regardless of the
Total-level values recorded in the frame. -/
theorem claim_C5 (rows : List (String × List ℚ)) (m ns nf : ℕ) (bids : List String)
    (tol : ℚ) (hlen : bids.length = ns * nf) (htol : 0 ≤ tol) :
    verify_hierarchy_consistency rows m (create_summing_matrix ns nf) bids tol = true := by
  rw [verify_hierarchy_consistency, List.all_eq_true]
  intro c _
  simp only [decide_eq_true_eq, not_lt]
  have h1 : ∀ j ∈ Finset.range bids.length,
      create_summing_matrix ns nf 0 j *
        (bids.map (fun uid => valuesById_get rows c uid)).getD j 0 =
      (bids.map (fun uid => valuesById_get rows c uid)).getD j 0 := by
    intro j hj
    rw [create_summing_matrix_total ns nf j (hlen ▸ Finset.mem_range.mp hj), one_mul]
  rw [Finset.sum_congr rfl h1]
  have h2 : bids.length = (bids.map (fun uid => valuesById_get rows c uid)).length :=
    (List.length_map _ _).symm
  rw [h2, list_sum_getD, sub_self, abs_zero]
  exact htol

/-- Counterexample to C5 as stated: on a frame whose recorded Total (100)
differs from the bottom sum (3) by far more than the tolerance, the claim
says `verify_hierarchy_consistency` must return `False`, but the code
returns `True` — it never consults the Total-level value. -/
theorem claim_C5_counterexample :
    verify_hierarchy_consistency c5rows 1 (create_summing_matrix 2 1) ["b1", "b2"]
      (1 / 1000000) = true ∧
    |meanVal c5rows 0 "Total" - (meanVal c5rows 0 "b1" + meanVal c5rows 0 "b2")| >
      1 / 1000000 := by
  constructor
  · with_unfolding_all rfl
  · have h1 : meanVal c5rows 0 "Total" = 100 := by with_unfolding_all rfl
    have h2 : meanVal c5rows 0 "b1" = 1 := by with_unfolding_all rfl
    have h3 : meanVal c5rows 0 "b2" = 2 := by with_unfolding_all rfl
    rw [h1, h2, h3]
    norm_num

/-- Witness for C5 (amended) at the counterexample frame. -/
theorem claim_C5_witness :
    ((["b1", "b2"] : List String).length = 2 * 1 ∧ (0 : ℚ) ≤ 1 / 1000000) ∧
    verify_hierarchy_consistency c5rows 3 (create_summing_matrix 2 1) ["b1", "b2"]
      (1 / 1000000) = true :=
  ⟨⟨by decide, by norm_num⟩,
   claim_C5 c5rows 3 2 1 ["b1", "b2"] (1 / 1000000) (by decide) (by norm_num)⟩

/-- C9: `verify_hierarchy_consistency` substitutes 0 for any bottom id that
is absent from the forecast frame, averages a series' values when it appears
at several timestamps, and therefore a frame missing some or all bottom-level
series still returns `True` rather than failing or raising. -/
theorem claim_C9 :
    (∀ (rows : List (String × List ℚ)) (c : ℕ) (uid : String),
      (∀ r ∈ rows, r.1 ≠ uid) → valuesById_get rows c uid = 0) ∧
    (∀ (u : String) (v w : ℚ),
      valuesById_get [(u, [v]), (u, [w])] 0 u = (v + w) / 2) ∧
    (∀ (rows : List (String × List ℚ)) (m : ℕ) (S : ℕ → ℕ → ℚ) (bids : List String)
      (tol : ℚ), 0 ≤ tol → (∀ uid ∈ bids, ∀ r ∈ rows, r.1 ≠ uid) →
      verify_hierarchy_consistency rows m S bids tol = true) := by
  refine ⟨valuesById_get_absent, ?_, ?_⟩
  · intro u v w
    simp [valuesById_get, meanVal, colVals, List.filter_cons]
  · intro rows m S bids tol htol h
    rw [verify_hierarchy_consistency, List.all_eq_true]
    intro c _
    simp only [decide_eq_true_eq, not_lt]
    have hmap : bids.map (fun uid => valuesById_get rows c uid) =
        bids.map (fun _ => (0 : ℚ)) := by
      refine List.map_congr_left ?_
      intro uid huid
      exact valuesById_get_absent rows c uid (h uid huid)
    rw [hmap]
    have hgd : ∀ j, (bids.map (fun _ => (0 : ℚ))).getD j 0 = 0 := by
      intro j
      rw [List.getD_eq_getElem?_getD, List.getElem?_map]
      cases bids[j]? <;> simp
    simp only [hgd, mul_zero, Finset.sum_const_zero]
    have hsum : (bids.map (fun _ => (0 : ℚ))).sum = 0 := by
      induction bids with
      | nil => rfl
      | cons a t ih => simp [ih]
    rw [hsum, sub_self, abs_zero]
    exact htol

/-- Witness for C9: an absent id maps to 0; two timestamps average; a frame
holding only a Total row (no bottom series at all) passes. -/
theorem claim_C9_witness :
    valuesById_get [("x", [5])] 0 "absent" = 0 ∧
    valuesById_get [("u", [1]), ("u", [3])] 0 "u" = (1 + 3) / 2 ∧
    verify_hierarchy_consistency [("Total", [100])] 1 (create_summing_matrix 1 1)
      ["b1"] 1 = true :=
  ⟨claim_C9.1 [("x", [5])] 0 "absent" (by decide),
   claim_C9.2.1 "u" 1 3,
   claim_C9.2.2 [("Total", [100])] 1 (create_summing_matrix 1 1) ["b1"] 1
     (by norm_num) (by decide)⟩

/-! ### Claim C7 -/

theorem insertionSort_head_key (l : List (String × ℚ)) (hl : l ≠ [])
    (hpair : l.Pairwise (fun a b => a.1 ≤ b.1)) :
    ∃ h, (List.insertionSort scoreLE l).head? = some h ∧ h ∈ l ∧
      (∀ x ∈ l, h.2 ≤ x.2) ∧ (∀ x ∈ l, x.2 = h.2 → h.1 ≤ x.1) := by
  induction l with
  | nil => exact absurd rfl hl
  | cons a t ih =>
    have hhead : ∀ x ∈ t, a.1 ≤ x.1 := (List.pairwise_cons.mp hpair).1
    have hpt : t.Pairwise (fun a b => a.1 ≤ b.1) := (List.pairwise_cons.mp hpair).2
    by_cases htnil : t = []
    · subst htnil
      refine ⟨a, rfl, by simp, ?_, ?_⟩
      · intro x hx
        simp only [List.mem_singleton] at hx
        subst hx
        exact le_rfl
      · intro x hx _
        simp only [List.mem_singleton] at hx
        subst hx
        exact le_rfl
    · obtain ⟨h, hh, hmem, hmin, htie⟩ := ih htnil hpt
      obtain ⟨rest, hrest⟩ : ∃ rest, List.insertionSort scoreLE t = h :: rest := by
        cases hs : List.insertionSort scoreLE t with
        | nil => rw [hs] at hh; simp at hh
        | cons b r =>
          rw [hs] at hh
          simp only [List.head?_cons, Option.some_inj] at hh
          exact ⟨r, by rw [hh]⟩
      by_cases hab : a.2 ≤ h.2
      · refine ⟨a, ?_, by simp, ?_, ?_⟩
        · simp only [List.insertionSort]
          rw [hrest]
          simp only [List.orderedInsert]
          rw [if_pos (show scoreLE a h from hab)]
          rfl
        · intro x hx
          rcases List.mem_cons.mp hx with hxa | hxt
          · rw [hxa]
          · exact le_trans hab (hmin x hxt)
        · intro x hx _
          rcases List.mem_cons.mp hx with hxa | hxt
          · rw [hxa]
          · exact hhead x hxt
      · refine ⟨h, ?_, List.mem_cons_of_mem a hmem, ?_, ?_⟩
        · simp only [List.insertionSort]
          rw [hrest]
          simp only [List.orderedInsert]
          rw [if_neg (show ¬scoreLE a h from hab)]
          rfl
        · intro x hx
          rcases List.mem_cons.mp hx with hxa | hxt
          · rw [hxa]
            exact le_of_lt (lt_of_not_le hab)
          · exact hmin x hxt
        · intro x hx hxeq
          rcases List.mem_cons.mp hx with hxa | hxt
          · exfalso
            rw [hxa] at hxeq
            exact (ne_of_lt (lt_of_not_le hab)) hxeq.symm
          · exact htie x hxt hxeq

theorem sortedUnique_mem {α : Type} [LinearOrder α] (l : List α) (a : α) :
    a ∈ sortedUnique l ↔ a ∈ l := by
  unfold sortedUnique
  rw [List.Perm.mem_iff (List.perm_insertionSort _ _), List.mem_dedup]

theorem sortedUnique_pairwise_le {α : Type} [LinearOrder α] (l : List α) :
    (sortedUnique l).Pairwise (fun a b : α => a ≤ b) := by
  unfold sortedUnique
  have hT : IsTotal α (fun a b : α => a ≤ b) := ⟨le_total⟩
  have hR : IsTrans α (fun a b : α => a ≤ b) := ⟨fun _ _ _ => le_trans⟩
  exact @List.sorted_insertionSort α _ _ hT hR _

theorem sortedUnique_ne_nil {α : Type} [LinearOrder α] (l : List α) (hl : l ≠ []) :
    sortedUnique l ≠ [] := by
  intro hcon
  apply hl
  have hp := List.perm_insertionSort (fun a b : α => a ≤ b) l.dedup
  rw [show List.insertionSort (fun a b : α => a ≤ b) l.dedup = sortedUnique l from rfl,
    hcon] at hp
  exact (List.dedup_eq_nil l).mp (List.Perm.eq_nil hp.symm)

/-- C7 (amended): `select_best_reconciliation_method` returns the method
whose mean of the chosen metric over the level-filtered rows is lowest; when
two methods tie on that aggregate score, the lexicographically smallest
method name wins (pandas `groupby` orders the method names ascending and the
stable ascending sort by score preserves that order), not the first-seen
encounter-order name. -/
theorem claim_C7 (results : List EvalRow) (metric : MetricName) (level : Option String)
    (hne : filterLevel results level ≠ []) :
    ∃ best, select_best_reconciliation_method results metric level = some best ∧
      (∃ r ∈ filterLevel results level, r.method = best) ∧
      (∀ m, (∃ r ∈ filterLevel results level, r.method = m) →
        methodMean (filterLevel results level) metric best ≤
          methodMean (filterLevel results level) metric m ∧
        (methodMean (filterLevel results level) metric m =
          methodMean (filterLevel results level) metric best → best ≤ m)) := by
  have hmapne : (filterLevel results level).map (fun r => r.method) ≠ [] := by
    intro hcon
    exact hne (List.map_eq_nil_iff.mp hcon)
  have hmne : sortedUnique ((filterLevel results level).map (fun r => r.method)) ≠ [] :=
    sortedUnique_ne_nil _ hmapne
  have hsne : (sortedUnique ((filterLevel results level).map (fun r => r.method))).map
      (fun m => (m, methodMean (filterLevel results level) metric m)) ≠ [] := by
    intro hcon
    exact hmne (List.map_eq_nil_iff.mp hcon)
  have hspair : ((sortedUnique ((filterLevel results level).map (fun r => r.method))).map
      (fun m => (m, methodMean (filterLevel results level) metric m))).Pairwise
      (fun a b => a.1 ≤ b.1) := by
    rw [List.pairwise_map]
    exact sortedUnique_pairwise_le _
  obtain ⟨h, hh, hmem, hmin, htie⟩ := insertionSort_head_key _ hsne hspair
  obtain ⟨m₀, hm₀, hm₀eq⟩ := List.mem_map.mp hmem
  subst hm₀eq
  refine ⟨m₀, ?_, ?_, ?_⟩
  · show (List.insertionSort scoreLE
      ((sortedUnique ((filterLevel results level).map (fun r => r.method))).map
        (fun m => (m, methodMean (filterLevel results level) metric m)))).head?.map
          Prod.fst = some m₀
    rw [hh]
    rfl
  · have := (sortedUnique_mem ((filterLevel results level).map (fun r => r.method)) m₀).mp hm₀
    obtain ⟨r, hr, hreq⟩ := List.mem_map.mp this
    exact ⟨r, hr, hreq⟩
  · intro m hm
    have hmmem : m ∈ sortedUnique ((filterLevel results level).map (fun r => r.method)) := by
      rw [sortedUnique_mem]
      rw [List.mem_map]
      obtain ⟨r, hr, hreq⟩ := hm
      exact ⟨r, hr, hreq⟩
    have hsc : (m, methodMean (filterLevel results level) metric m) ∈
        (sortedUnique ((filterLevel results level).map (fun r => r.method))).map
          (fun m => (m, methodMean (filterLevel results level) metric m)) :=
      List.mem_map_of_mem _ hmmem
    exact ⟨hmin _ hsc, fun heq => htie _ hsc heq⟩

/-- Counterexample to C7 as stated: on a tie the claim says the first-seen
(encounter-order) method name `ZZZ` wins, but the code returns `AAA` —
`groupby` has already reordered the methods by name, and the ascending
stable sort keeps that order. -/
theorem claim_C7_counterexample :
    select_best_reconciliation_method c7rows MetricName.rmse none = some "AAA" ∧
    (c7rows.map (fun r => r.method)).headD "" = "ZZZ" ∧ ("AAA" : String) ≠ "ZZZ" := by
  refine ⟨?_, ?_, by decide⟩
  · with_unfolding_all rfl
  · with_unfolding_all rfl

/-- Witness for C7 (amended) at the counterexample table filtered to level
`Total`. -/
theorem claim_C7_witness :
    (filterLevel c7rows (some "Total") ≠ []) ∧
    ∃ best, select_best_reconciliation_method c7rows MetricName.rmse (some "Total") =
        some best ∧
      (∃ r ∈ filterLevel c7rows (some "Total"), r.method = best) ∧
      (∀ m, (∃ r ∈ filterLevel c7rows (some "Total"), r.method = m) →
        methodMean (filterLevel c7rows (some "Total")) MetricName.rmse best ≤
          methodMean (filterLevel c7rows (some "Total")) MetricName.rmse m ∧
        (methodMean (filterLevel c7rows (some "Total")) MetricName.rmse m =
          methodMean (filterLevel c7rows (some "Total")) MetricName.rmse best → best ≤ m)) :=
  ⟨by with_unfolding_all decide,
   claim_C7 c7rows MetricName.rmse (some "Total") (by with_unfolding_all decide)⟩

/-! ### Claim C4 -/

/-- C4 (amended): every fold produced by `walk_forward_split` has its
boundaries given by the backward formulas
`valid_end = max_date - i*step_days`, `valid_start = valid_end - valid_days`,
`train_end = valid_start - gap_days`, `train_start = train_end - train_days`
for some fold index `i < n_splits`; the gap `valid_start - train_end` equals
the configured `gap_days` exactly (hence is `≥ gap_days`); for `gap_days ≥ 0`
no fold has `train_end > valid_start` (with `gap_days = 0` the two
boundaries coincide, so `train_end ≥ valid_start` does occur); train rows
satisfy `train_start ≤ date < train_end`, valid rows satisfy
`valid_start ≤ date ≤ valid_end`, and for `gap_days ≥ 0` every train row
date is strictly before every valid row date. -/
theorem claim_C4 (dates : List ℤ) (train_days valid_days gap_days : ℤ) (n_splits : ℕ)
    (step_days : ℤ) (_hne : dates ≠ []) :
    ∀ f ∈ walk_forward_split dates train_days valid_days gap_days n_splits step_days,
      f.valid_start - f.train_end = gap_days ∧
      (0 ≤ gap_days → f.train_end ≤ f.valid_start) ∧
      (1 ≤ gap_days → f.train_end < f.valid_start) ∧
      f.train_end = f.valid_start - gap_days ∧
      f.train_start = f.train_end - train_days ∧
      f.valid_start = f.valid_end - valid_days ∧
      (∃ i : ℕ, i < n_splits ∧ f.valid_end = maxDate dates - (i : ℤ) * step_days) ∧
      minDate dates ≤ f.train_start ∧
      (∀ d ∈ f.train, f.train_start ≤ d ∧ d < f.train_end) ∧
      (∀ d ∈ f.valid, f.valid_start ≤ d ∧ d ≤ f.valid_end) ∧
      (0 ≤ gap_days → ∀ d ∈ f.train, ∀ e ∈ f.valid, d < e) := by
  intro f hf
  rw [walk_forward_split] at hf
  obtain ⟨i, hi, hsome⟩ := List.mem_filterMap.mp hf
  have hi' : i < n_splits := List.mem_range.mp hi
  by_cases hskip : maxDate dates - (i : ℤ) * step_days - valid_days - gap_days - train_days <
      minDate dates
  · rw [if_pos hskip] at hsome
    exact absurd hsome (by simp)
  · rw [if_neg hskip] at hsome
    by_cases hnonempty : (dates.filter (fun d =>
        decide (maxDate dates - (i : ℤ) * step_days - valid_days - gap_days - train_days ≤ d ∧
          d < maxDate dates - (i : ℤ) * step_days - valid_days - gap_days))) ≠ [] ∧
        (dates.filter (fun d =>
          decide (maxDate dates - (i : ℤ) * step_days - valid_days ≤ d ∧
            d ≤ maxDate dates - (i : ℤ) * step_days))) ≠ []
    · rw [if_pos hnonempty] at hsome
      obtain rfl : _ = f := Option.some_inj.mp hsome
      refine ⟨by ring, fun hg => by simp; omega, fun hg => by simp; omega, by ring, by ring,
        by ring, ⟨i, hi', rfl⟩, by simpa using hskip, ?_, ?_, ?_⟩
      · intro d hd
        have := (List.mem_filter.mp hd).2
        simpa using this
      · intro d hd
        have := (List.mem_filter.mp hd).2
        simpa using this
      · intro hg d hd e he
        have hd' := (List.mem_filter.mp hd).2
        have he' := (List.mem_filter.mp he).2
        simp only [decide_eq_true_eq] at hd' he'
        omega
    · rw [if_neg hnonempty] at hsome
      exact absurd hsome (by simp)

/-- Counterexample to C4 as stated: with the default `gap_days = 0`
(dates 0..4, train 2 days, valid 2 days, one split) the produced fold has
`train_end = valid_start = 2`, i.e. `train_end ≥ valid_start`, which the
claim says never happens. -/
theorem claim_C4_counterexample :
    walk_forward_split [0, 1, 2, 3, 4] 2 2 0 1 1 =
      [{ train_start := 0, train_end := 2, valid_start := 2, valid_end := 4,
         train := [0, 1], valid := [2, 3, 4] }] ∧
    (walk_forward_split [0, 1, 2, 3, 4] 2 2 0 1 1).any
      (fun f => decide (f.valid_start ≤ f.train_end)) = true := by
  refine ⟨?_, ?_⟩
  · with_unfolding_all rfl
  · with_unfolding_all rfl

/-- Witness for C4 (amended) at the concrete five-day panel. -/
theorem claim_C4_witness :
    (([0, 1, 2, 3, 4] : List ℤ) ≠ []) ∧
    c4fold ∈ walk_forward_split [0, 1, 2, 3, 4] 2 2 0 1 1 ∧
    c4fold.valid_start - c4fold.train_end = 0 :=
  ⟨by decide, by with_unfolding_all decide,
   (claim_C4 [0, 1, 2, 3, 4] 2 2 0 1 1 (by decide) c4fold
     (by with_unfolding_all decide)).1⟩
